import Mathlib

/-!
Shallow embedding of the progress/streak core of the workout-buddy web app:
`src/services/AudioTracker.ts`, the storage utilities, and the progress
reducer, together with proofs about the claims of the specification.

Calendar days are modelled as integers (one unit = one calendar day); the
source keys its progress map by `Date.toDateString()` strings and computes
day differences by millisecond subtraction and `Math.floor`, which on
date-only values agrees with integer day subtraction.

JavaScript number arithmetic in the evaluator is modelled over `ℚ`. The
threshold comparison is exact: `2700000 * 0.8` rounds to exactly
`2160000` as an IEEE double, and comparing it with the integer accumulator
is exact, so `ℚ` is faithful there. The minutes quotient `ms / 60000` is
also safe: its rounding ties (`ms ≡ 30000 mod 60000`) are exactly
representable halves, so `Math.round` of the double agrees with exact
round-half-up. The percentage path `(ms / 2700000) * 100` is *not* exact:
at half-way inputs the double falls below the tie (for example
`2713500 / 2700000 * 100 = 100.49999999999999` and `Math.round` gives
100), so that path is modelled with an explicit double-rounding function
`flDouble` (round to nearest, ties to even, 53-bit significand).
-/

namespace WorkoutBuddy

/-- Default configuration of `APP_CONFIG` in `src/constants/config.ts`:
`WORKOUT_TARGET_MINUTES` defaults to 45. -/
def WORKOUT_TARGET_MINUTES : ℕ := 45

/-- `APP_CONFIG.COMPLETION_THRESHOLD = 0.8`. -/
def COMPLETION_THRESHOLD : ℚ := 8 / 10

/-- `APP_CONFIG.WEEKLY_GOAL_DAYS` defaults to 5. -/
def WEEKLY_GOAL_DAYS : ℕ := 5

/-- `STORAGE_KEYS.DAILY_PROGRESS`. -/
def DAILY_PROGRESS_KEY : String := "workoutbuddy_daily_progress"

/-- `STORAGE_KEYS.USER_STATS`. -/
def USER_STATS_KEY : String := "workoutbuddy_user_stats"

/-- `STORAGE_KEYS.USER_PROFILE`. -/
def USER_PROFILE_KEY : String := "workoutbuddy_user_profile"

/-- `STORAGE_KEYS.WORKOUT_HISTORY`. -/
def WORKOUT_HISTORY_KEY : String := "workoutbuddy_workout_history"

/-! ### Association lists as a model of JavaScript objects

A JavaScript object literal is a finite map whose keys are unique and kept
in insertion order; property read returns the value at the key, property
write updates the value in place when the key exists and appends it
otherwise. -/

/-- Property read of key `k` on an object modelled as an association list. -/
def assocGet {α β : Type} [DecidableEq α] : List (α × β) → α → Option β
  | [], _ => none
  | e :: rest, k => if e.1 = k then some e.2 else assocGet rest k

/-- Whether the object has the key `k`. -/
def assocHas {α β : Type} [DecidableEq α] (m : List (α × β)) (k : α) : Bool :=
  m.any (fun e => decide (e.1 = k))

/-- Property write `m[k] = v` on a JavaScript object: replaces the value in
place when the key exists, appends the pair otherwise. This is also the
semantics of the spread update `{...m, [k]: v}`. -/
def assocSet {α β : Type} [DecidableEq α] (m : List (α × β)) (k : α) (v : β) :
    List (α × β) :=
  if assocHas m k then m.map (fun e => if e.1 = k then (k, v) else e)
  else m ++ [(k, v)]

theorem assocSet_of_has {α β : Type} [DecidableEq α]
    {m : List (α × β)} {k : α} (v : β) (h : assocHas m k = true) :
    assocSet m k v = m.map (fun e => if e.1 = k then (k, v) else e) := by
  simp [assocSet, h]

theorem assocSet_of_not_has {α β : Type} [DecidableEq α]
    {m : List (α × β)} {k : α} (v : β) (h : ¬ assocHas m k = true) :
    assocSet m k v = m ++ [(k, v)] := by
  simp [assocSet, h]

theorem assocGet_map_set_self {α β : Type} [DecidableEq α]
    (m : List (α × β)) (k : α) (v : β) (h : assocHas m k = true) :
    assocGet (m.map (fun e => if e.1 = k then (k, v) else e)) k = some v := by
  induction m with
  | nil => simp [assocHas] at h
  | cons e rest ih =>
    by_cases he : e.1 = k
    · simp [assocGet, he]
    · have hr : assocHas rest k = true := by
        simpa [assocHas, he] using h
      simpa [assocGet, he] using ih hr

theorem assocHas_cons {α β : Type} [DecidableEq α]
    (e : α × β) (rest : List (α × β)) (k : α) :
    assocHas (e :: rest) k = (decide (e.1 = k) || assocHas rest k) := rfl

theorem assocGet_append_single_self {α β : Type} [DecidableEq α]
    (m : List (α × β)) (k : α) (v : β) (h : ¬ assocHas m k = true) :
    assocGet (m ++ [(k, v)]) k = some v := by
  induction m with
  | nil => simp [assocGet]
  | cons e rest ih =>
    have he : ¬ e.1 = k := by
      intro hc; apply h; rw [assocHas_cons]; simp [hc]
    have hr : ¬ assocHas rest k = true := by
      intro hc; apply h; rw [assocHas_cons]; simp [hc]
    simpa [assocGet, he] using ih hr

theorem assocGet_map_set_ne {α β : Type} [DecidableEq α]
    (m : List (α × β)) (k k' : α) (v : β) (h : k' ≠ k) :
    assocGet (m.map (fun e => if e.1 = k then (k, v) else e)) k' = assocGet m k' := by
  induction m with
  | nil => simp [assocGet]
  | cons e rest ih =>
    by_cases he : e.1 = k
    · have hek' : ¬ e.1 = k' := by
        rw [he]; exact h.symm
      rw [List.map_cons, if_pos he]
      simp [assocGet, h.symm, hek', ih]
    · rw [List.map_cons, if_neg he]
      by_cases he' : e.1 = k'
      · simp [assocGet, he']
      · simp [assocGet, he', ih]

theorem assocGet_append_single_ne {α β : Type} [DecidableEq α]
    (m : List (α × β)) (k k' : α) (v : β) (h : k' ≠ k) :
    assocGet (m ++ [(k, v)]) k' = assocGet m k' := by
  induction m with
  | nil => simp [assocGet, h.symm]
  | cons e rest ih =>
    by_cases he : e.1 = k'
    · simp [assocGet, he]
    · simp [assocGet, he, ih]

theorem assocGet_assocSet_self {α β : Type} [DecidableEq α]
    (m : List (α × β)) (k : α) (v : β) :
    assocGet (assocSet m k v) k = some v := by
  by_cases h : assocHas m k
  · rw [assocSet_of_has v h]
    exact assocGet_map_set_self m k v h
  · rw [assocSet_of_not_has v h]
    exact assocGet_append_single_self m k v h

theorem assocGet_assocSet_ne {α β : Type} [DecidableEq α]
    (m : List (α × β)) (k k' : α) (v : β) (h : k' ≠ k) :
    assocGet (assocSet m k v) k' = assocGet m k' := by
  by_cases hh : assocHas m k
  · rw [assocSet_of_has v hh]
    exact assocGet_map_set_ne m k k' v h
  · rw [assocSet_of_not_has v hh]
    exact assocGet_append_single_ne m k k' v h

/-! ### Typed model of the progress data

`DailyProgress` in `src/types` maps a date string to a day record; dates
are modelled as integer day indices. -/

/-- One day's record in the `DailyProgress` map. -/
structure DayEntry where
  completed : Bool
  audioMinutes : ℤ
  completionPercentage : ℤ
  timestamp : ℤ
deriving DecidableEq

/-- The date-keyed progress map, as a JavaScript object (association list). -/
abbrev DailyProgress := List (ℤ × DayEntry)

/-- JavaScript `Math.round` on the (non-negative) values the tracker
produces: round half up, `⌊q + 1/2⌋`, applied to the exact value of the
double argument. -/
def jsRound (q : ℚ) : ℤ := ⌊q + 1 / 2⌋

/-- Round a rational to the nearest integer, ties to even — the IEEE-754
rounding of a scaled significand. -/
def rne (x : ℚ) : ℤ :=
  if x - ⌊x⌋ < 1 / 2 then ⌊x⌋
  else if 1 / 2 < x - ⌊x⌋ then ⌊x⌋ + 1
  else if Even ⌊x⌋ then ⌊x⌋ else ⌊x⌋ + 1

/-- Round a positive rational to the nearest IEEE-754 double
(round-to-nearest, ties-to-even, 53-bit significand; the exponent is
unbounded, which agrees with binary64 on the normal range all values here
inhabit): scale so the significand lies in `[2^52, 2^53)`, round it to an
integer, and scale back. Non-positive input (only 0 arises) maps to 0. -/
def flDouble (q : ℚ) : ℚ :=
  if q ≤ 0 then 0
  else rne (q / 2 ^ (Int.log 2 q - 52)) * 2 ^ (Int.log 2 q - 52)

/-- The session result object built by
`AudioTracker.checkWorkoutCompletion`. -/
structure SessionResult where
  completed : Bool
  audioPlaybackMinutes : ℤ
  targetMinutes : ℕ
  completionPercentage : ℤ
  date : ℤ
  timestamp : ℤ
deriving DecidableEq

/-- The pure computation of `checkWorkoutCompletion`
(`AudioTracker.ts` lines 48–70): threshold test, rounded minutes and
percentage, stamped with today's date and the current time. The
percentage `(audioPlaybackTime / targetTime) * 100` is evaluated in
doubles — one rounding for the division, one for the product — before
`Math.round`; the threshold and minutes paths are exact in doubles, so
they stay in plain `ℚ`. -/
def checkWorkoutCompletionResult (audioPlaybackTime : ℕ) (today now : ℤ) :
    SessionResult :=
  let targetTime : ℚ := (WORKOUT_TARGET_MINUTES : ℚ) * 60 * 1000
  let completionThreshold : ℚ := targetTime * COMPLETION_THRESHOLD
  { completed := decide (completionThreshold ≤ (audioPlaybackTime : ℚ)),
    audioPlaybackMinutes := jsRound ((audioPlaybackTime : ℚ) / 60000),
    targetMinutes := WORKOUT_TARGET_MINUTES,
    completionPercentage :=
      jsRound (flDouble (flDouble ((audioPlaybackTime : ℚ) / targetTime) * 100)),
    date := today,
    timestamp := now }

/-- `AudioTracker.markDailyGoalComplete`: read the stored map (empty when
absent), then write today's entry with `completed: true` and the session's
minutes, percentage and timestamp. -/
def markDailyGoalComplete (stored : Option DailyProgress) (today : ℤ)
    (sessionResult : SessionResult) : DailyProgress :=
  let progressData := stored.getD []
  assocSet progressData today
    { completed := true,
      audioMinutes := sessionResult.audioPlaybackMinutes,
      completionPercentage := sessionResult.completionPercentage,
      timestamp := sessionResult.timestamp }

/-- `checkWorkoutCompletion` including its storage effect: the daily map is
written (via `markDailyGoalComplete`) only when the workout completed. -/
def checkWorkoutCompletion (audioPlaybackTime : ℕ) (today now : ℤ)
    (stored : Option DailyProgress) : SessionResult × Option DailyProgress :=
  let sessionResult := checkWorkoutCompletionResult audioPlaybackTime today now
  if sessionResult.completed then
    (sessionResult, some (markDailyGoalComplete stored today sessionResult))
  else (sessionResult, stored)

/-! ### Streak computation (`calculateCurrentStreak`) -/

/-- The dates of the map whose entry has `completed == true`, in key order. -/
def completedDates (progressData : DailyProgress) : List ℤ :=
  (progressData.filter (fun e => e.2.completed)).map Prod.fst

/-- Sort dates most recent first, as the source's
`sort((a, b) => new Date(b).getTime() - new Date(a).getTime())`. -/
def sortDesc (l : List ℤ) : List ℤ :=
  l.insertionSort (· ≥ ·)

/-- The loop of `calculateCurrentStreak`: for each date (most recent
first), `daysDifference` is the signed calendar-day distance from today;
a difference equal to the current streak extends it, a larger one breaks
out of the loop, a smaller one is skipped. -/
def streakLoop (today : ℤ) : ℕ → List ℤ → ℕ
  | streak, [] => streak
  | streak, d :: rest =>
    let daysDifference := today - d
    if daysDifference = (streak : ℤ) then streakLoop today (streak + 1) rest
    else if (streak : ℤ) < daysDifference then streak
    else streakLoop today streak rest

/-- `AudioTracker.calculateCurrentStreak` (lines 128–148). -/
def calculateCurrentStreak (today : ℤ) (progressData : DailyProgress) : ℕ :=
  streakLoop today 0 (sortDesc (completedDates progressData))

/-- Length of the initial run `t, t-1, t-2, …` at the head of a list. -/
def prefixRun (t : ℤ) : List ℤ → ℕ
  | [] => 0
  | d :: rest => if d = t then prefixRun (t - 1) rest + 1 else 0

/-- Maximum of a list of dates (the most recent one), `none` on `[]`. -/
def listMax : List ℤ → Option ℤ
  | [] => none
  | d :: rest =>
    match listMax rest with
    | none => some d
    | some m => some (max d m)

/-- The most recent completed date of a progress map. -/
def mostRecentCompleted (progressData : DailyProgress) : Option ℤ :=
  listMax (completedDates progressData)

/-! ### Weekly stats and totals -/

/-- `AudioTracker.getCurrentWeekDates`: the 7 dates of the current week
starting on Sunday. Day indices are aligned so that `d % 7 = 0` exactly on
Sundays. -/
def getCurrentWeekDates (today : ℤ) : List ℤ :=
  let startOfWeek := today - today % 7
  (List.range 7).map (fun i => startOfWeek + i)

/-- The `WeeklyStats` record of `src/types`. -/
structure WeeklyStats where
  daysCompleted : ℕ
  weeklyGoal : ℕ
  daysRemaining : ℕ
  weeklyPercentage : ℤ
  currentWeekDates : List ℤ
deriving DecidableEq

/-- `AudioTracker.calculateWeeklyStats` (lines 150–165); `Math.max(0, ·)`
on the remaining days is ℕ truncated subtraction. -/
def calculateWeeklyStats (progressData : DailyProgress) (today : ℤ) :
    WeeklyStats :=
  let currentWeekDates := getCurrentWeekDates today
  let completedThisWeek :=
    (currentWeekDates.filter (fun date =>
      match assocGet progressData date with
      | some e => e.completed
      | none => false)).length
  { daysCompleted := completedThisWeek,
    weeklyGoal := WEEKLY_GOAL_DAYS,
    daysRemaining := WEEKLY_GOAL_DAYS - completedThisWeek,
    weeklyPercentage :=
      jsRound ((completedThisWeek : ℚ) / (WEEKLY_GOAL_DAYS : ℚ) * 100),
    currentWeekDates := currentWeekDates }

/-- The `UserStats` record of `src/types`. -/
structure UserStats where
  currentStreak : ℕ
  weeklyStats : WeeklyStats
  totalWorkouts : ℕ
  totalMinutes : ℤ
  lastUpdated : ℤ
deriving DecidableEq

/-- `AudioTracker.updateStreakAndStats` (lines 108–126): streak, weekly
stats, count of completed days, sum of `audioMinutes` over all days. -/
def updateStreakAndStats (progressData : DailyProgress) (today now : ℤ) :
    UserStats :=
  { currentStreak := calculateCurrentStreak today progressData,
    weeklyStats := calculateWeeklyStats progressData today,
    totalWorkouts :=
      ((progressData.map Prod.snd).filter (fun day => day.completed)).length,
    totalMinutes :=
      (progressData.map Prod.snd).foldl (fun sum day => sum + day.audioMinutes) 0,
    lastUpdated := now }

/-- `refreshStats` of `ProgressContext` (lines 129–144): the same streak,
weekly stats and totals, recomputed from the in-memory map. -/
def refreshStats (progressData : DailyProgress) (today now : ℤ) : UserStats :=
  { currentStreak := calculateCurrentStreak today progressData,
    weeklyStats := calculateWeeklyStats progressData today,
    totalWorkouts :=
      ((progressData.map Prod.snd).filter (fun day => day.completed)).length,
    totalMinutes :=
      (progressData.map Prod.snd).foldl (fun sum day => sum + day.audioMinutes) 0,
    lastUpdated := now }

/-! ### Playback accumulator state machine

`AudioTracker`'s mutable session state: `audioPlaybackTime`, `isPlaying`,
and whether the 1-second interval is installed. The interval callback adds
1000 ms exactly when `isPlaying` holds. -/

structure TrackerState where
  audioPlaybackTime : ℕ
  isPlaying : Bool
  intervalActive : Bool
deriving DecidableEq

inductive TrackerEvent where
  | startSession
  | startPlaybackTracking
  | audioPlay
  | audioPause
  | audioEnd
  | tick
  | stopTracking
deriving DecidableEq

/-- One event of the tracker: `startSession` resets the accumulator,
`onAudioPlay`/`onAudioPause`/`onAudioEnd` toggle `isPlaying`, a tick of the
installed interval adds 1000 ms when playing, `stopTracking` clears the
interval. -/
def trackerStep (s : TrackerState) : TrackerEvent → TrackerState
  | .startSession => { s with audioPlaybackTime := 0, isPlaying := false }
  | .startPlaybackTracking => { s with intervalActive := true }
  | .audioPlay => { s with isPlaying := true }
  | .audioPause => { s with isPlaying := false }
  | .audioEnd => { s with isPlaying := false }
  | .tick =>
    if s.intervalActive && s.isPlaying then
      { s with audioPlaybackTime := s.audioPlaybackTime + 1000 }
    else s
  | .stopTracking => { s with intervalActive := false, isPlaying := false }

/-- Run a sequence of tracker events from a state. -/
def runEvents (s : TrackerState) (events : List TrackerEvent) : TrackerState :=
  events.foldl trackerStep s

/-! ### The progress reducer (`ProgressContext`) -/

structure ProgressState where
  dailyProgress : DailyProgress
  userStats : UserStats
  isLoading : Bool

inductive ProgressAction where
  | loadProgress (dailyProgress : DailyProgress) (userStats : UserStats)
  | updateDailyProgress (date : ℤ) (progress : DayEntry)
  | updateStats (payload : UserStats)
  | setLoading (payload : Bool)

/-- `progressReducer` of `ProgressContext` (lines 38–74); the
`UPDATE_DAILY_PROGRESS` case is the spread update
`{...state.dailyProgress, [date]: progress}`. -/
def progressReducer (state : ProgressState) : ProgressAction → ProgressState
  | .loadProgress dp us =>
    { state with dailyProgress := dp, userStats := us, isLoading := false }
  | .updateDailyProgress date progress =>
    { state with dailyProgress := assocSet state.dailyProgress date progress }
  | .updateStats payload => { state with userStats := payload }
  | .setLoading payload => { state with isLoading := payload }

/-! ### Helper lemmas about the evaluator -/

theorem checkWorkoutCompletion_fst (ms : ℕ) (today now : ℤ)
    (stored : Option DailyProgress) :
    (checkWorkoutCompletion ms today now stored).1
      = checkWorkoutCompletionResult ms today now := by
  unfold checkWorkoutCompletion
  by_cases h : (checkWorkoutCompletionResult ms today now).completed <;> simp [h]

theorem checkWorkoutCompletionResult_completed_iff (ms : ℕ) (today now : ℤ) :
    (checkWorkoutCompletionResult ms today now).completed = true ↔ 2160000 ≤ ms := by
  have h2 : (checkWorkoutCompletionResult ms today now).completed
      = decide ((WORKOUT_TARGET_MINUTES : ℚ) * 60 * 1000 * COMPLETION_THRESHOLD
          ≤ (ms : ℚ)) := rfl
  have h3 : (WORKOUT_TARGET_MINUTES : ℚ) * 60 * 1000 * COMPLETION_THRESHOLD
      = 2160000 := by
    norm_num [WORKOUT_TARGET_MINUTES, COMPLETION_THRESHOLD]
  rw [h2, h3, decide_eq_true_eq]
  constructor <;> intro h <;> exact_mod_cast h

/-- C2: for every accumulatedMs ≥ 0, evaluating a session under the default
configuration (target 45 minutes, threshold fraction 0.8) yields an outcome
whose completed flag is true iff accumulatedMs ≥ 45 × 60000 × 0.8
= 2,160,000 ms. -/
theorem checkWorkoutCompletion_completed_iff (accumulatedMs : ℕ) (today now : ℤ)
    (stored : Option DailyProgress) :
    (checkWorkoutCompletion accumulatedMs today now stored).1.completed = true
      ↔ 2160000 ≤ accumulatedMs := by
  rw [checkWorkoutCompletion_fst]
  exact checkWorkoutCompletionResult_completed_iff accumulatedMs today now

/-- C10: a session strictly below the 2,160,000 ms completion threshold
yields completed = false and leaves the persisted daily map untouched; and
every entry the tracker itself writes (for any session) has completed set
to true, so the tracker's own path never stores an incomplete day. -/
theorem checkWorkoutCompletion_incomplete_frame (accumulatedMs : ℕ)
    (today now : ℤ) (stored : Option DailyProgress)
    (h : accumulatedMs < 2160000) :
    (checkWorkoutCompletion accumulatedMs today now stored).1.completed = false
    ∧ (checkWorkoutCompletion accumulatedMs today now stored).2 = stored
    ∧ (∀ (ms' : ℕ) (stored' : Option DailyProgress) (d : ℤ) (e : DayEntry),
        assocGet ((checkWorkoutCompletion ms' today now stored').2.getD []) d
          = some e →
        assocGet (stored'.getD []) d = some e ∨ e.completed = true) := by
  have hfalse : (checkWorkoutCompletionResult accumulatedMs today now).completed
      = false := by
    rcases Bool.eq_false_or_eq_true
        (checkWorkoutCompletionResult accumulatedMs today now).completed with hb | hb
    · exact absurd ((checkWorkoutCompletionResult_completed_iff _ _ _).mp hb)
        (by omega)
    · exact hb
  refine ⟨by rw [checkWorkoutCompletion_fst]; exact hfalse, ?_, ?_⟩
  · unfold checkWorkoutCompletion
    simp [hfalse]
  · intro ms' stored' d e hget
    unfold checkWorkoutCompletion at hget
    by_cases hc : (checkWorkoutCompletionResult ms' today now).completed
    · simp only [hc, if_true] at hget
      simp only [Option.getD_some] at hget
      unfold markDailyGoalComplete at hget
      by_cases hd : d = today
      · subst hd
        rw [assocGet_assocSet_self] at hget
        right
        injection hget with he
        rw [← he]
      · rw [assocGet_assocSet_ne _ _ _ _ hd] at hget
        left
        exact hget
    · simp only [Bool.not_eq_true] at hc
      simp only [hc, Bool.false_eq_true, if_false] at hget
      left
      exact hget

/-- C10 witness: a concrete incomplete session (1,000 ms) against an empty
store: completed is false and the store is unchanged. -/
theorem checkWorkoutCompletion_incomplete_frame_witness :
    (checkWorkoutCompletion 1000 0 0 none).1.completed = false
    ∧ (checkWorkoutCompletion 1000 0 0 none).2 = none := by
  have h := checkWorkoutCompletion_incomplete_frame 1000 0 0 none (by norm_num)
  exact ⟨h.1, h.2.1⟩

/-! ### Tracker termination behaviour (C5) -/

theorem runEvents_ticks_fixed (events : List TrackerEvent) :
    ∀ s : TrackerState, s.isPlaying = false →
      (∀ e ∈ events, e = TrackerEvent.tick) → runEvents s events = s := by
  induction events with
  | nil => intro s _ _; rfl
  | cons e rest ih =>
    intro s hp h
    have he : e = TrackerEvent.tick := h e (List.mem_cons_self e rest)
    subst he
    have hstep : trackerStep s TrackerEvent.tick = s := by
      unfold trackerStep
      rw [hp]
      simp
    show runEvents (trackerStep s TrackerEvent.tick) rest = s
    rw [hstep]
    exact ih s hp (fun e' he' => h e' (List.mem_cons_of_mem _ he'))

/-- C5 counterexample: from the freshly started, playing, interval-active
state, `onAudioEnd` leaves the accumulator at 0, but a subsequent
`onAudioPlay` followed by a tick raises it to 1000 ms — the Ended state is
not terminal in the code, so a later tick does change accumulatedMs. -/
theorem tracker_onEnd_not_terminal_cex :
    (runEvents ⟨0, false, false⟩
      [TrackerEvent.startSession, TrackerEvent.startPlaybackTracking,
       TrackerEvent.audioPlay, TrackerEvent.audioEnd]).audioPlaybackTime = 0
    ∧ (runEvents ⟨0, false, false⟩
      [TrackerEvent.startSession, TrackerEvent.startPlaybackTracking,
       TrackerEvent.audioPlay, TrackerEvent.audioEnd,
       TrackerEvent.audioPlay, TrackerEvent.tick]).audioPlaybackTime = 1000 := by
  constructor <;> rfl

/-- C5 (amended): after `onAudioEnd`, `isPlaying` is false and
`accumulatedMs` is unchanged, and every subsequent sequence consisting only
of ticks leaves `accumulatedMs` unchanged; but the state is not terminal —
an intervening `onAudioPlay` re-enables accumulation, so the freeze only
holds for tick-only continuations. -/
theorem tracker_onEnd_frozen (s : TrackerState) (events : List TrackerEvent)
    (h : ∀ e ∈ events, e = TrackerEvent.tick) :
    (trackerStep s TrackerEvent.audioEnd).isPlaying = false
    ∧ (trackerStep s TrackerEvent.audioEnd).audioPlaybackTime
        = s.audioPlaybackTime
    ∧ (runEvents (trackerStep s TrackerEvent.audioEnd) events).audioPlaybackTime
        = (trackerStep s TrackerEvent.audioEnd).audioPlaybackTime := by
  refine ⟨rfl, rfl, ?_⟩
  rw [runEvents_ticks_fixed events (trackerStep s TrackerEvent.audioEnd) rfl h]

/-- C5 witness: a concrete playing state with 5,000 ms accumulated; after
`onAudioEnd` and two ticks the accumulator still reads 5,000 ms. -/
theorem tracker_onEnd_frozen_witness :
    (trackerStep ⟨5000, true, true⟩ TrackerEvent.audioEnd).isPlaying = false
    ∧ (runEvents (trackerStep ⟨5000, true, true⟩ TrackerEvent.audioEnd)
        [TrackerEvent.tick, TrackerEvent.tick]).audioPlaybackTime
      = (trackerStep ⟨5000, true, true⟩ TrackerEvent.audioEnd).audioPlaybackTime := by
  have h := tracker_onEnd_frozen ⟨5000, true, true⟩
    [TrackerEvent.tick, TrackerEvent.tick] (by decide)
  exact ⟨h.1, h.2.2⟩

/-! ### Upsert frame property (C8) -/

/-- C8: upserting an outcome o at date d — both through the reducer's
`UPDATE_DAILY_PROGRESS` spread and through `markDailyGoalComplete`'s write
of today's entry — yields a store mapping d to o with every other date's
entry unchanged. -/
theorem upsert_frame_spec (state : ProgressState) (date : ℤ) (o : DayEntry)
    (stored : Option DailyProgress) (sessionResult : SessionResult) (today : ℤ) :
    (assocGet (progressReducer state
        (ProgressAction.updateDailyProgress date o)).dailyProgress date = some o
      ∧ ∀ d', d' ≠ date →
          assocGet (progressReducer state
            (ProgressAction.updateDailyProgress date o)).dailyProgress d'
            = assocGet state.dailyProgress d')
    ∧ (assocGet (markDailyGoalComplete stored today sessionResult) today
        = some { completed := true,
                 audioMinutes := sessionResult.audioPlaybackMinutes,
                 completionPercentage := sessionResult.completionPercentage,
                 timestamp := sessionResult.timestamp }
      ∧ ∀ d', d' ≠ today →
          assocGet (markDailyGoalComplete stored today sessionResult) d'
            = assocGet (stored.getD []) d') := by
  refine ⟨⟨?_, ?_⟩, ?_, ?_⟩
  · exact assocGet_assocSet_self _ _ _
  · intro d' hd'
    exact assocGet_assocSet_ne _ _ _ _ hd'
  · exact assocGet_assocSet_self _ _ _
  · intro d' hd'
    exact assocGet_assocSet_ne _ _ _ _ hd'

/-- C8 witness: a concrete two-entry store updated at date 5; date 5 now
maps to the new entry and date 3's entry is untouched, likewise for a
concrete `markDailyGoalComplete` write. -/
theorem upsert_frame_spec_witness :
    assocGet (progressReducer
        { dailyProgress := [(3, { completed := true, audioMinutes := 10,
                                  completionPercentage := 20, timestamp := 1 })],
          userStats := { currentStreak := 0,
                         weeklyStats := { daysCompleted := 0, weeklyGoal := 5,
                                          daysRemaining := 5, weeklyPercentage := 0,
                                          currentWeekDates := [] },
                         totalWorkouts := 0, totalMinutes := 0, lastUpdated := 0 },
          isLoading := false }
        (ProgressAction.updateDailyProgress 5
          { completed := false, audioMinutes := 7,
            completionPercentage := 15, timestamp := 2 })).dailyProgress 3
      = some { completed := true, audioMinutes := 10,
               completionPercentage := 20, timestamp := 1 } := by
  have h := upsert_frame_spec
    { dailyProgress := [(3, { completed := true, audioMinutes := 10,
                              completionPercentage := 20, timestamp := 1 })],
      userStats := { currentStreak := 0,
                     weeklyStats := { daysCompleted := 0, weeklyGoal := 5,
                                      daysRemaining := 5, weeklyPercentage := 0,
                                      currentWeekDates := [] },
                     totalWorkouts := 0, totalMinutes := 0, lastUpdated := 0 },
      isLoading := false }
    5
    { completed := false, audioMinutes := 7, completionPercentage := 15,
      timestamp := 2 }
    none
    { completed := true, audioPlaybackMinutes := 36, targetMinutes := 45,
      completionPercentage := 100, date := 0, timestamp := 0 }
    0
  have h3 := h.1.2 3 (by decide)
  rw [h3]
  rfl

/-! ### Totals (C9) -/

theorem foldl_add_audioMinutes (l : List DayEntry) (n : ℤ) :
    l.foldl (fun sum day => sum + day.audioMinutes) n
      = n + (l.map (fun day => day.audioMinutes)).sum := by
  induction l generalizing n with
  | nil => simp
  | cons d rest ih => simp [ih, add_assoc]

/-- C9: in both `updateStreakAndStats` and `refreshStats`, totalMinutes is
the sum of audioMinutes over all stored day entries (completed or not) and
totalWorkouts is the number of entries whose completed flag is true. -/
theorem totals_spec (progressData : DailyProgress) (today now : ℤ) :
    (updateStreakAndStats progressData today now).totalMinutes
        = (progressData.map (fun e => e.2.audioMinutes)).sum
    ∧ (updateStreakAndStats progressData today now).totalWorkouts
        = (progressData.filter (fun e => e.2.completed)).length
    ∧ (refreshStats progressData today now).totalMinutes
        = (progressData.map (fun e => e.2.audioMinutes)).sum
    ∧ (refreshStats progressData today now).totalWorkouts
        = (progressData.filter (fun e => e.2.completed)).length := by
  have hmin : (progressData.map Prod.snd).foldl
      (fun sum day => sum + day.audioMinutes) 0
      = (progressData.map (fun e => e.2.audioMinutes)).sum := by
    rw [foldl_add_audioMinutes, List.map_map]
    norm_num
    rfl
  have hcnt : ((progressData.map Prod.snd).filter
      (fun day => day.completed)).length
      = (progressData.filter (fun e => e.2.completed)).length := by
    rw [List.filter_map, List.length_map]
    rfl
  exact ⟨hmin, hcnt, hmin, hcnt⟩

/-! ### Streak characterization (C1) -/

theorem streakLoop_cons_eq {today d : ℤ} {streak : ℕ} {rest : List ℤ}
    (h : today - d = (streak : ℤ)) :
    streakLoop today streak (d :: rest) = streakLoop today (streak + 1) rest := by
  simp only [streakLoop]
  rw [if_pos h]

theorem streakLoop_cons_gt {today d : ℤ} {streak : ℕ} {rest : List ℤ}
    (h : (streak : ℤ) < today - d) :
    streakLoop today streak (d :: rest) = streak := by
  simp only [streakLoop]
  rw [if_neg (by omega), if_pos h]

theorem streakLoop_cons_lt {today d : ℤ} {streak : ℕ} {rest : List ℤ}
    (h : today - d < (streak : ℤ)) :
    streakLoop today streak (d :: rest) = streakLoop today streak rest := by
  simp only [streakLoop]
  rw [if_neg (by omega), if_neg (by omega)]

theorem streakLoop_eq_prefixRun (today : ℤ) :
    ∀ (l : List ℤ) (streak : ℕ),
      l.Pairwise (fun a b => b < a) →
      (∀ d ∈ l, d ≤ today - (streak : ℤ)) →
      streakLoop today streak l = streak + prefixRun (today - (streak : ℤ)) l := by
  intro l
  induction l with
  | nil =>
    intro streak _ _
    simp [streakLoop, prefixRun]
  | cons d rest ih =>
    intro streak hp hle
    rcases List.pairwise_cons.mp hp with ⟨hd, hrest⟩
    by_cases hdt : d = today - (streak : ℤ)
    · have hle' : ∀ e ∈ rest, e ≤ today - ((streak + 1 : ℕ) : ℤ) := by
        intro e he
        have h1 := hd e he
        push_cast
        omega
      rw [streakLoop_cons_eq (by omega), ih (streak + 1) hrest hle']
      have hpr : prefixRun (today - (streak : ℤ)) (d :: rest)
          = prefixRun (today - (streak : ℤ) - 1) rest + 1 := by
        simp only [prefixRun]
        rw [if_pos hdt]
      rw [hpr]
      have hcast : today - ((streak + 1 : ℕ) : ℤ) = today - (streak : ℤ) - 1 := by
        push_cast
        ring
      rw [hcast]
      omega
    · have hdle : d ≤ today - (streak : ℤ) := hle d (List.mem_cons_self d rest)
      rw [streakLoop_cons_gt (by omega)]
      have hpr : prefixRun (today - (streak : ℤ)) (d :: rest) = 0 := by
        simp only [prefixRun]
        rw [if_neg hdt]
      rw [hpr]
      omega

theorem prefixRun_mem :
    ∀ (l : List ℤ) (t : ℤ) (i : ℕ), i < prefixRun t l → t - (i : ℤ) ∈ l := by
  intro l
  induction l with
  | nil =>
    intro t i h
    simp [prefixRun] at h
  | cons d rest ih =>
    intro t i h
    by_cases hdt : d = t
    · have hh : i < prefixRun (t - 1) rest + 1 := by
        have hpr : prefixRun t (d :: rest) = prefixRun (t - 1) rest + 1 := by
          simp only [prefixRun]
          rw [if_pos hdt]
        rwa [hpr] at h
      cases i with
      | zero =>
        have ht : t - ((0 : ℕ) : ℤ) = t := by push_cast; ring
        rw [ht]
        exact List.mem_cons.mpr (Or.inl hdt.symm)
      | succ j =>
        have hj : j < prefixRun (t - 1) rest := by omega
        have heq : t - ((j + 1 : ℕ) : ℤ) = (t - 1) - (j : ℤ) := by push_cast; ring
        rw [heq]
        exact List.mem_cons_of_mem d (ih (t - 1) j hj)
    · have hpr : prefixRun t (d :: rest) = 0 := by
        simp only [prefixRun]
        rw [if_neg hdt]
      rw [hpr] at h
      omega

theorem prefixRun_not_mem :
    ∀ (l : List ℤ) (t : ℤ),
      l.Pairwise (fun a b => b < a) → (∀ d ∈ l, d ≤ t) →
      t - ((prefixRun t l : ℕ) : ℤ) ∉ l := by
  intro l
  induction l with
  | nil =>
    intro t _ _
    simp
  | cons d rest ih =>
    intro t hp hle
    rcases List.pairwise_cons.mp hp with ⟨hd, hrest⟩
    by_cases hdt : d = t
    · have hpr : prefixRun t (d :: rest) = prefixRun (t - 1) rest + 1 := by
        simp only [prefixRun]
        rw [if_pos hdt]
      rw [hpr]
      intro hmem
      rcases List.mem_cons.mp hmem with heq | hmem'
      · push_cast at heq
        omega
      · have hle' : ∀ e ∈ rest, e ≤ t - 1 := by
          intro e he
          have h1 := hd e he
          omega
        apply ih (t - 1) hrest hle'
        have heq2 : t - ((prefixRun (t - 1) rest + 1 : ℕ) : ℤ)
            = (t - 1) - ((prefixRun (t - 1) rest : ℕ) : ℤ) := by
          push_cast
          ring
        rwa [heq2] at hmem'
    · have hpr : prefixRun t (d :: rest) = 0 := by
        simp only [prefixRun]
        rw [if_neg hdt]
      rw [hpr]
      intro hmem
      have ht : t - ((0 : ℕ) : ℤ) = t := by push_cast; ring
      rw [ht] at hmem
      rcases List.mem_cons.mp hmem with heq | hmem'
      · exact hdt heq.symm
      · have h1 := hd t hmem'
        have h2 := hle d (List.mem_cons_self d rest)
        omega

theorem listMax_mem : ∀ (l : List ℤ) (m : ℤ), listMax l = some m → m ∈ l := by
  intro l
  induction l with
  | nil =>
    intro m h
    simp [listMax] at h
  | cons d rest ih =>
    intro m h
    rw [listMax] at h
    cases hr : listMax rest with
    | none =>
      rw [hr] at h
      injection h with h
      exact List.mem_cons.mpr (Or.inl h.symm)
    | some m' =>
      rw [hr] at h
      injection h with h
      rcases max_choice d m' with hc | hc
      · rw [hc] at h
        exact List.mem_cons.mpr (Or.inl h.symm)
      · rw [hc] at h
        exact List.mem_cons_of_mem d (h ▸ ih m' hr)

theorem listMax_eq_of_max :
    ∀ (l : List ℤ) (t : ℤ), t ∈ l → (∀ d ∈ l, d ≤ t) → listMax l = some t := by
  intro l
  induction l with
  | nil =>
    intro t hm _
    cases hm
  | cons d rest ih =>
    intro t hm hle
    rw [listMax]
    rcases List.mem_cons.mp hm with heq | hmem
    · subst heq
      cases hr : listMax rest with
      | none => rfl
      | some m' =>
        have hm' := listMax_mem rest m' hr
        have hle' : m' ≤ t := hle m' (List.mem_cons_of_mem t hm')
        show some (max t m') = some t
        rw [max_eq_left hle']
    · have hrec := ih t hmem (fun e he => hle e (List.mem_cons_of_mem d he))
      rw [hrec]
      have hdle : d ≤ t := hle d (List.mem_cons_self d rest)
      show some (max d t) = some t
      rw [max_eq_right hdle]

theorem completedDates_nodup (p : DailyProgress)
    (hnd : (p.map Prod.fst).Nodup) : (completedDates p).Nodup :=
  List.Nodup.sublist ((List.filter_sublist p).map Prod.fst) hnd

/-- A day entry recording a completed 36-minute session. -/
def fullEntry : DayEntry :=
  { completed := true, audioMinutes := 36, completionPercentage := 100,
    timestamp := 0 }

/-- With today = day 10: a store whose completed dates are exactly today
and the 6 preceding consecutive calendar days. -/
def sevenDayStore : DailyProgress :=
  [(10, fullEntry), (9, fullEntry), (8, fullEntry), (7, fullEntry),
   (6, fullEntry), (5, fullEntry), (4, fullEntry)]

/-- With today = day 10: a store whose only completed date is 2 days ago
(day 8), with nothing yesterday or today. -/
def gapStore : DailyProgress := [(8, fullEntry)]

/-- The currency component of C1 as stated: a non-zero current streak
implies that the most recent completed date is today. -/
def streakCurrencyClaim (today : ℤ) (p : DailyProgress) : Prop :=
  calculateCurrentStreak today p ≠ 0 → mostRecentCompleted p = some today

/-- C1 counterexample: a store whose completed dates are day 5 and day 0,
evaluated with today = day 0. The loop's skip branch ignores the
future-dated day 5 (its day-difference is negative), so the streak is 1,
yet the most recent completed date is day 5, not today: over arbitrary
progress stores the claim's currency assertion fails. -/
theorem calculateCurrentStreak_currency_cex :
    ¬ streakCurrencyClaim 0 [(5, fullEntry), (0, fullEntry)] := by
  intro h
  have h1 := h (by decide)
  have h2 : mostRecentCompleted [(5, fullEntry), (0, fullEntry)] = some 5 := by
    decide
  rw [h2] at h1
  exact absurd h1 (by decide)

/-- C1 (amended): for every progress store with unique keys whose completed
dates do not lie in the future, the computed streak r is exactly the length
of the run of consecutive completed calendar days going backward from
today (every day among the most recent r is completed, day today − r is
not), and r is non-zero only when the most recent completed date is today;
in particular the 7-consecutive-days store yields 7 and the
only-2-days-ago store yields 0. -/
theorem calculateCurrentStreak_spec (today : ℤ) (p : DailyProgress)
    (hnd : (p.map Prod.fst).Nodup)
    (hle : ∀ d ∈ completedDates p, d ≤ today) :
    (∀ i : ℕ, i < calculateCurrentStreak today p
      → today - (i : ℤ) ∈ completedDates p)
    ∧ today - ((calculateCurrentStreak today p : ℕ) : ℤ) ∉ completedDates p
    ∧ (calculateCurrentStreak today p ≠ 0
      → mostRecentCompleted p = some today)
    ∧ calculateCurrentStreak 10 sevenDayStore = 7
    ∧ calculateCurrentStreak 10 gapStore = 0 := by
  have hperm : (sortDesc (completedDates p)).Perm (completedDates p) :=
    List.perm_insertionSort _ _
  have hmem_iff : ∀ x : ℤ, x ∈ sortDesc (completedDates p)
      ↔ x ∈ completedDates p := fun x => hperm.mem_iff
  have hsorted : (sortDesc (completedDates p)).Sorted (· ≥ ·) :=
    List.sorted_insertionSort _ _
  have hnodupl : (sortDesc (completedDates p)).Nodup :=
    hperm.symm.nodup (completedDates_nodup p hnd)
  have hstrict : (sortDesc (completedDates p)).Pairwise (fun a b => b < a) :=
    hsorted.gt_of_ge hnodupl
  have hle_l : ∀ d ∈ sortDesc (completedDates p), d ≤ today - ((0 : ℕ) : ℤ) := by
    intro d hd
    have := hle d ((hmem_iff d).mp hd)
    push_cast
    omega
  have hcalc : calculateCurrentStreak today p
      = prefixRun today (sortDesc (completedDates p)) := by
    unfold calculateCurrentStreak
    rw [streakLoop_eq_prefixRun today _ 0 hstrict hle_l]
    norm_num
  have hle_l' : ∀ d ∈ sortDesc (completedDates p), d ≤ today := by
    intro d hd
    exact hle d ((hmem_iff d).mp hd)
  refine ⟨?_, ?_, ?_, by decide, by decide⟩
  · intro i hi
    rw [hcalc] at hi
    exact (hmem_iff _).mp (prefixRun_mem _ today i hi)
  · rw [hcalc]
    intro hmem
    exact prefixRun_not_mem _ today hstrict hle_l' ((hmem_iff _).mpr hmem)
  · intro hne
    rw [hcalc] at hne
    have h0 : 0 < prefixRun today (sortDesc (completedDates p)) :=
      Nat.pos_of_ne_zero hne
    have hmem0 := prefixRun_mem _ today 0 h0
    have htoday : today ∈ completedDates p := by
      have hm := (hmem_iff _).mp hmem0
      simpa using hm
    exact listMax_eq_of_max (completedDates p) today htoday hle

/-- C1 witness: the 7-consecutive-days store with today = day 10 has
unique keys and no future dates; day 7 (= 10 − 3) is among its completed
dates and its most recent completed date is day 10. -/
theorem calculateCurrentStreak_spec_witness :
    (10 : ℤ) - ((3 : ℕ) : ℤ) ∈ completedDates sevenDayStore
    ∧ mostRecentCompleted sevenDayStore = some 10 := by
  have h := calculateCurrentStreak_spec 10 sevenDayStore (by decide) (by decide)
  exact ⟨h.1 3 (by decide), h.2.2.1 (by decide)⟩

/-! ### JSON values and localStorage (`storageUtils.ts`)

Parsed JSON values. `JSON.stringify`/`JSON.parse` round-trip is the
identity on such values, so localStorage is modelled as a map from key to
the parsed value it stores, and a serialized import payload is modelled as
`Option JValue`: `none` for a string `JSON.parse` throws on, `some v` for
one that parses to `v`. -/

inductive JValue where
  | jnull
  | jbool (b : Bool)
  | jnum (q : ℚ)
  | jstr (s : String)
  | jarr (elems : List JValue)
  | jobj (fields : List (String × JValue))

/-- JavaScript truthiness of a parsed JSON value: `null`, `false`, `0` and
the empty string are falsy; every object and array is truthy. -/
def jsTruthy : JValue → Bool
  | .jnull => false
  | .jbool b => b
  | .jnum q => decide (¬ q = 0)
  | .jstr s => decide (¬ s = "")
  | .jarr _ => true
  | .jobj _ => true

/-- Property read `v[k]` for a non-null `v`; `none` models `undefined`
(also the result of reading a named property off a boxed primitive).
Property access on `null` throws a TypeError in JavaScript — that case is
handled where it occurs, at the top of `importDataJ`, whose catch block
receives the throw; `jGet` itself is only applied to non-null values. -/
def jGet : JValue → String → Option JValue
  | .jobj fields, k => assocGet fields k
  | _, _ => none

/-- Truthiness of `data.k`, with `undefined` falsy. -/
def jFieldTruthy (data : JValue) (k : String) : Bool :=
  match jGet data k with
  | some v => jsTruthy v
  | none => false

/-- The browser's localStorage, keyed by string. -/
abbrev LocalStorage := List (String × JValue)

/-- `localStorage.setItem`, which throws (for example
`QuotaExceededError`) when the write cannot be performed; `quotaOk` is
whether storage accepts writes. -/
def setItem (quotaOk : Bool) (st : LocalStorage) (k : String) (v : JValue) :
    Except String LocalStorage :=
  if quotaOk then Except.ok (assocSet st k v)
  else Except.error "QuotaExceededError"

/-- `StorageUtils.getDailyProgress`: the stored value, or `{}` when the key
is absent. -/
def getDailyProgressJ (st : LocalStorage) : JValue :=
  (assocGet st DAILY_PROGRESS_KEY).getD (JValue.jobj [])

/-- `StorageUtils.getUserStats`: the stored value, or `null` (here `none`)
when absent. -/
def getUserStatsJ (st : LocalStorage) : Option JValue :=
  assocGet st USER_STATS_KEY

/-- `StorageUtils.getUserProfile`. -/
def getUserProfileJ (st : LocalStorage) : Option JValue :=
  assocGet st USER_PROFILE_KEY

/-- `StorageUtils.getWorkoutHistory`: the stored value, or `[]` when
absent. -/
def getWorkoutHistoryJ (st : LocalStorage) : JValue :=
  (assocGet st WORKOUT_HISTORY_KEY).getD (JValue.jarr [])

/-- `StorageUtils.saveDailyProgress` (part_005 lines 16–22): `setItem`
wrapped in try/catch whose catch only logs — the first component is what
the caller observes (always a normal return), the second the resulting
storage (unchanged when the write threw). -/
def saveDailyProgressJ (quotaOk : Bool) (st : LocalStorage) (v : JValue) :
    Except String Unit × LocalStorage :=
  match setItem quotaOk st DAILY_PROGRESS_KEY v with
  | Except.ok st' => (Except.ok (), st')
  | Except.error _ => (Except.ok (), st)

/-- `StorageUtils.saveUserStats`, same try/catch shape. -/
def saveUserStatsJ (quotaOk : Bool) (st : LocalStorage) (v : JValue) :
    Except String Unit × LocalStorage :=
  match setItem quotaOk st USER_STATS_KEY v with
  | Except.ok st' => (Except.ok (), st')
  | Except.error _ => (Except.ok (), st)

/-- `StorageUtils.saveUserProfile`, same try/catch shape. -/
def saveUserProfileJ (quotaOk : Bool) (st : LocalStorage) (v : JValue) :
    Except String Unit × LocalStorage :=
  match setItem quotaOk st USER_PROFILE_KEY v with
  | Except.ok st' => (Except.ok (), st')
  | Except.error _ => (Except.ok (), st)

/-- `StorageUtils.exportData` (part_005 lines 99–114): the serialized
snapshot, as its parsed value. -/
def exportDataJ (st : LocalStorage) (now : String) : JValue :=
  JValue.jobj
    [("dailyProgress", getDailyProgressJ st),
     ("userStats", (getUserStatsJ st).getD JValue.jnull),
     ("userProfile", (getUserProfileJ st).getD JValue.jnull),
     ("workoutHistory", getWorkoutHistoryJ st),
     ("exportDate", JValue.jstr now)]

/-- The body of `importData` for a payload that parsed to a non-null
value: each truthy section is saved in turn (each save swallowing its own
write errors), the workout history is written by a bare `setItem` whose
failure is caught by `importData` itself (yielding `false`), and `true`
is returned. -/
def importBody (quotaOk : Bool) (st : LocalStorage) (data : JValue) :
    Bool × LocalStorage :=
  let st1 := if jFieldTruthy data "dailyProgress" then
      (saveDailyProgressJ quotaOk st ((jGet data "dailyProgress").getD JValue.jnull)).2
    else st
  let st2 := if jFieldTruthy data "userStats" then
      (saveUserStatsJ quotaOk st1 ((jGet data "userStats").getD JValue.jnull)).2
    else st1
  let st3 := if jFieldTruthy data "userProfile" then
      (saveUserProfileJ quotaOk st2 ((jGet data "userProfile").getD JValue.jnull)).2
    else st2
  match jGet data "workoutHistory" with
  | some (JValue.jarr l) =>
    match setItem quotaOk st3 WORKOUT_HISTORY_KEY (JValue.jarr l) with
    | Except.ok st4 => (true, st4)
    | Except.error _ => (false, st3)
  | _ => (true, st3)

/-- `StorageUtils.importData` (part_005 lines 117–142): a payload that
fails to parse hits the catch and yields `false`; a payload that parses to
`null` also hits the catch — reading `data.dailyProgress` on `null` throws
a TypeError — leaving storage untouched; any other parsed payload is
processed by `importBody`. -/
def importDataJ (quotaOk : Bool) (st : LocalStorage) (payload : Option JValue) :
    Bool × LocalStorage :=
  match payload with
  | none => (false, st)
  | some JValue.jnull => (false, st)
  | some data => importBody quotaOk st data

/-- Shape of a valid serialized day outcome: an object whose `completed` is
a boolean and whose `audioMinutes`, `completionPercentage` and `timestamp`
are numbers. -/
def isValidDayOutcomeJ : JValue → Bool
  | .jobj fields =>
    (match assocGet fields "completed" with
      | some (.jbool _) => true | _ => false)
    && (match assocGet fields "audioMinutes" with
      | some (.jnum _) => true | _ => false)
    && (match assocGet fields "completionPercentage" with
      | some (.jnum _) => true | _ => false)
    && (match assocGet fields "timestamp" with
      | some (.jnum _) => true | _ => false)
  | _ => false

/-- Shape of a valid serialized progress store: an object each of whose
values is a valid day outcome. -/
def isValidProgressShapeJ : JValue → Bool
  | .jobj fields => fields.all (fun f => isValidDayOutcomeJ f.2)
  | _ => false

/-- Shape validity of an import payload's `dailyProgress` section (absent
counts as valid — nothing to import). -/
def isValidImportPayloadJ (data : JValue) : Bool :=
  match jGet data "dailyProgress" with
  | some dp => isValidProgressShapeJ dp
  | none => true

theorem saveDailyProgressJ_ok (st : LocalStorage) (v : JValue) :
    saveDailyProgressJ true st v
      = (Except.ok (), assocSet st DAILY_PROGRESS_KEY v) := rfl

theorem saveUserStatsJ_ok (st : LocalStorage) (v : JValue) :
    saveUserStatsJ true st v
      = (Except.ok (), assocSet st USER_STATS_KEY v) := rfl

theorem saveUserProfileJ_ok (st : LocalStorage) (v : JValue) :
    saveUserProfileJ true st v
      = (Except.ok (), assocSet st USER_PROFILE_KEY v) := rfl

theorem importBody_dp_lookup (st : LocalStorage) (data : JValue) :
    assocGet (importBody true st data).2 DAILY_PROGRESS_KEY
      = if jFieldTruthy data "dailyProgress" then
          some ((jGet data "dailyProgress").getD JValue.jnull)
        else assocGet st DAILY_PROGRESS_KEY := by
  have hne1 : DAILY_PROGRESS_KEY ≠ USER_STATS_KEY := by decide
  have hne2 : DAILY_PROGRESS_KEY ≠ USER_PROFILE_KEY := by decide
  have hne3 : DAILY_PROGRESS_KEY ≠ WORKOUT_HISTORY_KEY := by decide
  simp only [importBody, saveDailyProgressJ_ok, saveUserStatsJ_ok,
    saveUserProfileJ_ok]
  by_cases h1 : jFieldTruthy data "dailyProgress" = true
  all_goals by_cases h2 : jFieldTruthy data "userStats" = true
  all_goals by_cases h3 : jFieldTruthy data "userProfile" = true
  all_goals simp only [h1, h2, h3, if_true, if_false, Bool.false_eq_true]
  all_goals split
  all_goals
    simp [setItem, assocGet_assocSet_ne _ _ _ _ hne1,
      assocGet_assocSet_ne _ _ _ _ hne2, assocGet_assocSet_ne _ _ _ _ hne3,
      assocGet_assocSet_self]

theorem importDataJ_dp_lookup (st : LocalStorage) (data : JValue) :
    assocGet (importDataJ true st (some data)).2 DAILY_PROGRESS_KEY
      = if jFieldTruthy data "dailyProgress" then
          some ((jGet data "dailyProgress").getD JValue.jnull)
        else assocGet st DAILY_PROGRESS_KEY := by
  cases data with
  | jnull => simp [importDataJ, jFieldTruthy, jGet]
  | jbool b => exact importBody_dp_lookup st (JValue.jbool b)
  | jnum q => exact importBody_dp_lookup st (JValue.jnum q)
  | jstr s => exact importBody_dp_lookup st (JValue.jstr s)
  | jarr l => exact importBody_dp_lookup st (JValue.jarr l)
  | jobj fields => exact importBody_dp_lookup st (JValue.jobj fields)

/-- C4: exporting a snapshot and importing it back restores exactly the
stored date → day-outcome mapping, for every storage state (writes
succeeding): the daily-progress value read after the round-trip equals the
one read before. -/
theorem import_export_roundTrip (st : LocalStorage) (now : String) :
    getDailyProgressJ (importDataJ true st (some (exportDataJ st now))).2
      = getDailyProgressJ st := by
  have hstep : getDailyProgressJ (importDataJ true st (some (exportDataJ st now))).2
      = (assocGet (importDataJ true st (some (exportDataJ st now))).2
          DAILY_PROGRESS_KEY).getD (JValue.jobj []) := rfl
  rw [hstep, importDataJ_dp_lookup]
  by_cases h : jFieldTruthy (exportDataJ st now) "dailyProgress" = true
  · rw [if_pos h]
    rw [show jGet (exportDataJ st now) "dailyProgress"
        = some (getDailyProgressJ st) from rfl]
    rfl
  · rw [if_neg h]
    rfl

/-- C6's asserted behavior: every import payload that fails to parse
(`none`) or whose dailyProgress section fails shape validation is
rejected — the call returns false and storage is untouched. -/
def importRejectsInvalidClaim : Prop :=
  ∀ (st : LocalStorage) (payload : Option JValue),
    payload.elim True (fun data => isValidImportPayloadJ data = false) →
    importDataJ true st payload = (false, st)

/-- C6 counterexample: the payload `{"dailyProgress": 5}` parses but fails
shape validation (5 is not an object of day outcomes), yet `importData`
returns true and overwrites the stored progress map with the number 5. -/
theorem importData_invalid_shape_cex : ¬ importRejectsInvalidClaim := by
  intro h
  have hbad := h [(DAILY_PROGRESS_KEY, JValue.jobj [])]
    (some (JValue.jobj [("dailyProgress", JValue.jnum 5)])) rfl
  have hcomp : importDataJ true [(DAILY_PROGRESS_KEY, JValue.jobj [])]
      (some (JValue.jobj [("dailyProgress", JValue.jnum 5)]))
      = (true, [(DAILY_PROGRESS_KEY, JValue.jnum 5)]) := rfl
  rw [hcomp] at hbad
  have hfst : (true : Bool) = false := congrArg Prod.fst hbad
  exact Bool.noConfusion hfst

theorem importBody_failedWrites (st : LocalStorage) (data : JValue) :
    (importBody false st data).2 = st := by
  have hd : ∀ (s : LocalStorage) (v : JValue),
      saveDailyProgressJ false s v = (Except.ok (), s) := fun _ _ => rfl
  have hu : ∀ (s : LocalStorage) (v : JValue),
      saveUserStatsJ false s v = (Except.ok (), s) := fun _ _ => rfl
  have hp : ∀ (s : LocalStorage) (v : JValue),
      saveUserProfileJ false s v = (Except.ok (), s) := fun _ _ => rfl
  unfold importBody
  simp only [hd, hu, hp, ite_self]
  split
  · simp [setItem]
  · rfl

theorem importBody_history_write_fails (st : LocalStorage) (data : JValue)
    (l : List JValue) (h : jGet data "workoutHistory" = some (JValue.jarr l)) :
    importBody false st data = (false, st) := by
  have hd : ∀ (s : LocalStorage) (v : JValue),
      saveDailyProgressJ false s v = (Except.ok (), s) := fun _ _ => rfl
  have hu : ∀ (s : LocalStorage) (v : JValue),
      saveUserStatsJ false s v = (Except.ok (), s) := fun _ _ => rfl
  have hp : ∀ (s : LocalStorage) (v : JValue),
      saveUserProfileJ false s v = (Except.ok (), s) := fun _ _ => rfl
  unfold importBody
  simp only [hd, hu, hp, ite_self]
  rw [h]
  simp [setItem]

/-- C6 (amended): the imports `importData` rejects — returning false with
storage untouched — are the payloads that fail to parse, the payload
parsing to null (the `data.dailyProgress` read throws a TypeError, which
the catch converts to false), and, when storage refuses the writes, a
payload whose workoutHistory is an array (the bare `setItem` throw is
caught by `importData` itself); under failing writes the store is
untouched for every payload. There is no shape validation: a payload
parsing to a non-null value with writable storage is applied as-is and
returns true even when its dailyProgress has invalid shape. -/
theorem importData_error_handling :
    (∀ (quotaOk : Bool) (st : LocalStorage),
      importDataJ quotaOk st none = (false, st))
    ∧ (∀ (quotaOk : Bool) (st : LocalStorage),
      importDataJ quotaOk st (some JValue.jnull) = (false, st))
    ∧ (∀ (st : LocalStorage) (data : JValue),
      (importDataJ false st (some data)).2 = st)
    ∧ (∀ (st : LocalStorage) (data : JValue) (l : List JValue),
      jGet data "workoutHistory" = some (JValue.jarr l) →
      importDataJ false st (some data) = (false, st)) := by
  refine ⟨fun _ _ => rfl, fun _ _ => rfl, ?_, ?_⟩
  · intro st data
    cases data with
    | jnull => rfl
    | jbool b => exact importBody_failedWrites st (JValue.jbool b)
    | jnum q => exact importBody_failedWrites st (JValue.jnum q)
    | jstr s => exact importBody_failedWrites st (JValue.jstr s)
    | jarr el => exact importBody_failedWrites st (JValue.jarr el)
    | jobj fields => exact importBody_failedWrites st (JValue.jobj fields)
  · intro st data l h
    cases data with
    | jnull => exact absurd h (by simp [jGet])
    | jbool b => exact importBody_history_write_fails st (JValue.jbool b) l h
    | jnum q => exact importBody_history_write_fails st (JValue.jnum q) l h
    | jstr s => exact importBody_history_write_fails st (JValue.jstr s) l h
    | jarr el => exact importBody_history_write_fails st (JValue.jarr el) l h
    | jobj fields => exact importBody_history_write_fails st (JValue.jobj fields) l h

/-- C6 witness: a concrete instance of a rejection path — a payload
whose workoutHistory is an array, imported while storage refuses writes,
returns false and leaves the (empty) store untouched. -/
theorem importData_error_handling_witness :
    importDataJ false []
      (some (JValue.jobj [("workoutHistory", JValue.jarr [])])) = (false, []) := by
  exact importData_error_handling.2.2.2 []
    (JValue.jobj [("workoutHistory", JValue.jarr [])]) [] rfl

/-- C7's asserted behavior: on a failing write, `saveDailyProgress`
surfaces a failure signal to the caller. -/
def writeFailureSurfacedClaim (st : LocalStorage) (v : JValue) : Prop :=
  ∃ msg, (saveDailyProgressJ false st v).1 = Except.error msg

/-- C7 counterexample: with storage refusing writes, `saveDailyProgress`
on an empty store returns normally — the catch block swallows the
exception and no failure signal of any kind reaches the caller. -/
theorem saveDailyProgress_noSignal_cex :
    ¬ writeFailureSurfacedClaim [] (JValue.jobj []) := by
  rintro ⟨msg, h⟩
  rw [show (saveDailyProgressJ false [] (JValue.jobj [])).1
      = Except.ok () from rfl] at h
  exact Except.noConfusion h

/-- C7 (amended): for every store and failing write, `saveDailyProgress`
catches the error (logging only) and returns normally — no failure signal
reaches the caller — and the persisted store is unchanged by the failed
write, so the in-memory session state remains intact. -/
theorem saveDailyProgress_failedWrite_spec (st : LocalStorage) (v : JValue) :
    saveDailyProgressJ false st v = (Except.ok (), st) := rfl

end WorkoutBuddy
